import Mathlib

/-!
Shallow embedding of the layered-configuration subsystem of
`mhavel/cookiecutter-python3-quickstart`:

* `utils/mapping.py` — `dict_deep_update` (recursive deep merge);
* `pkg/config.py`    — `PkgConfig` (layered loading, the `_files`
  classification memo, `is_subconfig_file`, `get_subconfig_path`,
  `get`, the mutating operations, `reload`) and `ConfigValue`
  (the dirty-tracked read cache).

Python dictionaries are modelled as insertion-ordered association lists
(`List (String × Value)`); mutation of `self.data` / descriptors is
modelled by explicit state passing on a `PkgConfig` structure; filesystem
and network access (`Path.exists`, `download`, `interpret_file`,
`Path.expanduser().resolve()`) are abstracted into an `Env` of pure
functions, and each existence test / download performed is recorded in an
effect trace so that claims about "no search / no download" are statable.
Fallible Python code (raised exceptions) returns `Except` values.
-/

set_option autoImplicit false

namespace PkgCfg

/-- A Python value as it occurs in the configuration tree: `None`, a bool,
an int, a string, a `pathlib.Path` (modelled as a list of path segments),
a list, or a dict (modelled as an insertion-ordered association list). -/
inductive Value where
  | vnone  : Value
  | vbool  : Bool → Value
  | vint   : Int → Value
  | vstr   : String → Value
  | vpath  : List String → Value
  | vlist  : List Value → Value
  | vmap   : List (String × Value) → Value
  deriving Repr

/-- Python truthiness of a `Value` (`bool(x)`). -/
def truthy : Value → Bool
  | .vnone => false
  | .vbool b => b
  | .vint n => n ≠ 0
  | .vstr s => s ≠ ""
  | .vpath _ => true
  | .vlist l => !l.isEmpty
  | .vmap m => !m.isEmpty

/-- The runtime type tag of a value (`type(x)`), used by the deep-update
handler dispatch. -/
inductive VType where
  | tnone | tbool | tint | tstr | tpath | tlist | tmap
  deriving DecidableEq, Repr

/-- `type(v)` for the handler table of `dict_deep_update`. -/
def typeOf : Value → VType
  | .vnone => .tnone
  | .vbool _ => .tbool
  | .vint _ => .tint
  | .vstr _ => .tstr
  | .vpath _ => .tpath
  | .vlist _ => .tlist
  | .vmap _ => .tmap

/-- Dict read `d.get(k)` / `d[k]` on the association-list model: the value
of the first entry with the given key. -/
def getV (l : List (String × Value)) (k : String) : Option Value :=
  match l with
  | [] => none
  | (k', v) :: rest => if k' = k then some v else getV rest k

/-- Dict write `d[k] = v` on the association-list model: replace the value
of an existing key in place (insertion order kept), else append. -/
def setV (l : List (String × Value)) (k : String) (v : Value) :
    List (String × Value) :=
  match l with
  | [] => [(k, v)]
  | (k', v') :: rest => if k' = k then (k, v) :: rest else (k', v') :: setV rest k v

/-- Handler table of `dict_deep_update`: functions keyed by the runtime
type of the update value (`handlers.get(type(v))`). -/
def Handlers := List (VType × (Value → Value → Value))

/-- Handler lookup `handlers.get(type(v), None)`. -/
def lookupHandler (hs : Handlers) (t : VType) : Option (Value → Value → Value) :=
  match hs with
  | [] => none
  | (t', h) :: rest => if t' = t then some h else lookupHandler rest t

/-- The loop body of `utils/mapping.py::dict_deep_update`, iterating over
`u.items()` with the (mutated) original value `d` threaded through.

Source, for each `(k, v)` of the update:
* `isinstance(v, collections.Mapping)` → recurse on `d.get(k, {})` and `v`,
  store the result at `k`;
* else if `k in d` and a handler is registered for `type(v)` →
  `d[k] = h(d[k], u[k])`;
* else `d[k] = u[k]`.

`d` is only known to be a dict at the top level: the recursive call passes
`d.get(k, {})`, which may be any value.  When `d` is not a dict and there
is an item left to process, every Python path raises (`AttributeError` on
`d.get` when `v` is a mapping, `TypeError` on `k in d` or on item
assignment otherwise); this is the `.error` result. -/
def dduItems (hs : Handlers) : Value → List (String × Value) → Except Unit Value
  | d, [] => .ok d
  | d, (k, v) :: rest =>
    match d with
    | .vmap dm =>
      match v with
      | .vmap vs =>
        match dduItems hs ((getV dm k).getD (.vmap [])) vs with
        | .error e => .error e
        | .ok r => dduItems hs (.vmap (setV dm k r)) rest
      | _ =>
        match getV dm k with
        | some old =>
          match lookupHandler hs (typeOf v) with
          | some h => dduItems hs (.vmap (setV dm k (h old v))) rest
          | none => dduItems hs (.vmap (setV dm k v)) rest
        | none => dduItems hs (.vmap (setV dm k v)) rest
    | _ => .error ()
termination_by _ items => sizeOf items
decreasing_by
  all_goals simp_wf
  all_goals simp_arith [sizeOf]

/-- `utils/mapping.py::dict_deep_update(d, u, handlers)`: iterate over
`u.items()` (an `AttributeError`, modelled `.error`, if `u` is not a
mapping) updating `d`, and return the updated `d`. -/
def dict_deep_update (d u : Value) (hs : Handlers) : Except Unit Value :=
  match u with
  | .vmap us => dduItems hs d us
  | _ => .error ()

/-! ## The `PkgConfig` state and its environment -/

/-- The observable side effects a resolution performs: a filesystem
existence test (`Path.exists`) on a candidate path, or a download of a
URL.  Recorded so that "no search and no download" is statable. -/
inductive Effect where
  | stat : List String → Effect
  | download : String → Effect
  deriving DecidableEq, Repr

/-- The external collaborators of `pkg/config.py`, abstracted as pure
functions:
* `resolve` — `Path(root).expanduser().resolve()` on a root string;
* `fileExists` — `path.exists()` on an absolute path;
* `download` — `utils.downloads.download(url, dest, fname)`, returning the
  path of the downloaded file;
* `interpret` — `readers.interpret_file(path)`, parsing a file into a
  value. -/
structure Env where
  resolve : String → List String
  fileExists : List String → Bool
  download : String → String → String → List String
  interpret : Value → Value

/-- The mutable state of a `PkgConfig` instance: the sub-config default
search roots, the default download root, the `_files` classification memo
(`name ↦ bool`), the merged tree `data`, and the `_updated` dirty flag. -/
structure PkgConfig where
  default_paths : List String
  default_download_path : String
  files : List (String × Bool)
  data : List (String × Value)
  updated : Bool
  deriving Repr

/-- Memo read `self._files.get(name, None)`. -/
def getB (l : List (String × Bool)) (k : String) : Option Bool :=
  match l with
  | [] => none
  | (k', b) :: rest => if k' = k then some b else getB rest k

/-- Memo write `self._files[name] = b`. -/
def setB (l : List (String × Bool)) (k : String) (b : Bool) :
    List (String × Bool) :=
  match l with
  | [] => [(k, b)]
  | (k', b') :: rest => if k' = k then (k, b) :: rest else (k', b') :: setB rest k b

/-- The keys recognized in a resource descriptor
(`{'name', 'url', 'paths', '_path', 'is_file', 'download_dest'}`). -/
def recognizedKeys : List String :=
  ["name", "url", "paths", "_path", "is_file", "download_dest"]

/-- `x.get('is_file', self._files.get(name, None))`: the explicit
`is_file` value when the key is present, else the memoized classification
(as a bool), else Python's `None`. -/
def isFileRaw (c : PkgConfig) (m : List (String × Value)) (name : String) :
    Value :=
  match getV m "is_file" with
  | some v => v
  | none =>
    match getB c.files name with
    | some b => .vbool b
    | none => .vnone

/-- The classification a sub-map earns from its keys: a file iff no key
falls outside `recognizedKeys` (`set(x).difference(...)` empty). -/
def keyShapeIsFile (m : List (String × Value)) : Bool :=
  m.all (fun kv => kv.1 ∈ recognizedKeys)

/-- `PkgConfig.is_subconfig_file(self, name)`.  `none` models the
`KeyError` of `self.data[name]` on a missing key; otherwise the result is
the (truthiness of the) returned classification together with the config
whose `_files` memo may have been extended.

Source: a non-dict value is never a file; an explicit `is_file` value (or
a memoized classification) is returned as-is; otherwise the entry is
classified as a file iff its keys all lie in `recognizedKeys`, and the
classification is memoized in `self._files`. -/
def is_subconfig_file (c : PkgConfig) (name : String) :
    Option (Bool × PkgConfig) :=
  match getV c.data name with
  | none => none
  | some (.vmap m) =>
    match isFileRaw c m name with
    | .vnone =>
      some (keyShapeIsFile m,
        { c with files := setB c.files name (keyShapeIsFile m) })
    | v => some (truthy v, c)
  | some _ => some (false, c)

/-! ## `get_subconfig_path` -/

/-- The `dest_path` argument of `get_subconfig_path`: Python's `None`,
the literal `True`, or a directory. -/
inductive DestOpt where
  | noDest | destTrue | destDir (d : String)
  deriving DecidableEq, Repr

/-- The exceptions the locator (and `get`) can raise.  `fileNotFound`
carries the file name, the config key and the candidate root list, as the
Python message
`` `{fname}` (key = {name}) data could not be found in {p} `` does. -/
inductive LocErr where
  | keyError
  | assertionError
  | typeError
  | indexError
  | fileNotFound (fname name : String) (tried : List String)
  deriving DecidableEq, Repr

/-- Result of a locator call: the returned value or raised error, the
post-state of the config (Python mutates `self` in place), and the trace
of filesystem / network effects performed. -/
structure LocResult where
  res : Except LocErr Value
  cfg : PkgConfig
  effs : List Effect

/-- `fname = x.get('name', name)`.  Only string names are modelled
(a non-string `name` field yields a model-level type error). -/
def fnameOf (m : List (String × Value)) (name : String) : Option String :=
  match getV m "name" with
  | none => some name
  | some (.vstr s) => some s
  | some _ => none

/-- Read a `paths` list of root strings (only string roots are
modelled). -/
def asStrings : List Value → Option (List String)
  | [] => some []
  | .vstr s :: rest => (asStrings rest).map (s :: ·)
  | _ :: _ => none

/-- The search loop of `get_subconfig_path`:

    tried = set()
    for _p in map(lambda _: Path(_).expanduser().resolve() / fname, p):
        if _p.parent in tried: continue
        if _p.exists(): ... break
        tried.add(_p.parent)

Candidates are tried in list order; a candidate whose parent directory
(its resolved root, since `fname` is modelled as one segment) already
failed is skipped; the first existing candidate wins.  Returns the found
path (if any) and the trace of existence tests performed. -/
def searchLoop (env : Env) (fname : String) :
    List String → List (List String) → Option (List String) × List Effect
  | [], _ => (none, [])
  | r :: rest, tried =>
    let pr := env.resolve r
    if pr ∈ tried then searchLoop env fname rest tried
    else
      let fp := pr ++ [fname]
      if env.fileExists fp then (some fp, [.stat fp])
      else
        let (res, effs) := searchLoop env fname rest (pr :: tried)
        (res, .stat fp :: effs)

/-- The tail of `get_subconfig_path` once the candidate root list `p` is
fixed: run the search; on a hit cache the path into the descriptor's
`_path` and return it; on a miss raise `FileNotFoundError` when
`dest_path is None`, use the first candidate root when `dest_path is
True` (an `IndexError` on an empty list), else synthesize
`dest_path / fname` without any existence check. -/
def searchFinish (env : Env) (c : PkgConfig) (name : String)
    (m : List (String × Value)) (fname : String) (p : List String)
    (dest_path : DestOpt) : LocResult :=
  match searchLoop env fname p [] with
  | (some fp, effs) =>
    ⟨.ok (.vpath fp),
      { c with data := setV c.data name (.vmap (setV m "_path" (.vpath fp))) },
      effs⟩
  | (none, effs) =>
    match dest_path with
    | .noDest => ⟨.error (.fileNotFound fname name p), c, effs⟩
    | .destTrue =>
      match p with
      | [] => ⟨.error .indexError, c, effs⟩
      | r :: _ => ⟨.ok (.vpath (env.resolve r ++ [fname])), c, effs⟩
    | .destDir d => ⟨.ok (.vpath (env.resolve d ++ [fname])), c, effs⟩

/-- `PkgConfig.get_subconfig_path(self, name, try_default_paths=True,
dest_path=None)`.

Source structure:
1. `assert self.is_subconfig_file(name)` (a `KeyError` if the key is
   missing, an `AssertionError` if it is not file-shaped; the call may
   extend the `_files` memo);
2. a cached `_path` is returned as-is, with no search and no download;
3. a non-`None` `url` field downloads to `download_dest` (default: the
   config-wide download root) and caches the result into `_path`;
4. otherwise the candidate roots are the descriptor's own `paths` — with
   the config's `default_paths` appended **in place** onto the list stored
   in the tree when `try_default_paths` — or `default_paths` when the
   descriptor has no `paths`; then `searchFinish` runs. -/
def get_subconfig_path (env : Env) (c : PkgConfig) (name : String)
    (try_default_paths : Bool) (dest_path : DestOpt) : LocResult :=
  match is_subconfig_file c name with
  | none => ⟨.error .keyError, c, []⟩
  | some (isf, c1) =>
    if !isf then ⟨.error .assertionError, c1, []⟩
    else
      match getV c1.data name with
      | some (.vmap m) =>
        match getV m "_path" with
        | some pv => ⟨.ok pv, c1, []⟩
        | none =>
          match fnameOf m name with
          | none => ⟨.error .typeError, c1, []⟩
          | some fname =>
            match (getV m "url").getD .vnone with
            | .vnone =>
              match getV m "paths" with
              | some (.vlist l) =>
                match asStrings l with
                | none => ⟨.error .typeError, c1, []⟩
                | some roots =>
                  if try_default_paths then
                    let m1 := setV m "paths"
                      (.vlist (l ++ c1.default_paths.map .vstr))
                    let c2 := { c1 with data := setV c1.data name (.vmap m1) }
                    searchFinish env c2 name m1 fname
                      (roots ++ c1.default_paths) dest_path
                  else
                    searchFinish env c1 name m fname roots dest_path
              | some _ => ⟨.error .typeError, c1, []⟩
              | none =>
                searchFinish env c1 name m fname c1.default_paths dest_path
            | .vstr u =>
              match (getV m "download_dest").getD (.vstr c1.default_download_path) with
              | .vstr dd =>
                let fp := env.download u dd fname
                ⟨.ok (.vpath fp),
                  { c1 with data := setV c1.data name (.vmap (setV m "_path" (.vpath fp))) },
                  [.download u]⟩
              | _ => ⟨.error .typeError, c1, []⟩
            | _ => ⟨.error .typeError, c1, []⟩
      | _ => ⟨.error .keyError, c1, []⟩

/-! ## `read_subconfig`, `get`, and the mutating operations -/

/-- `PkgConfig.read_subconfig`: resolve the path, then parse the file.
The source always forwards `dest_path=None` to `get_subconfig_path`,
whatever `dest_path` it was itself given. -/
def read_subconfig (env : Env) (c : PkgConfig) (name : String)
    (try_default_paths : Bool) (_dest_path : DestOpt) : LocResult :=
  let r := get_subconfig_path env c name try_default_paths .noDest
  match r.res with
  | .ok v => ⟨.ok (env.interpret v), r.cfg, r.effs⟩
  | .error e => ⟨.error e, r.cfg, r.effs⟩

/-- `PkgConfig.get(self, name, default=None, try_default_paths=True,
dest_path=None, read_file=True)`: a file-shaped key is read (or its path
returned when `read_file` is false), any other key is returned raw; a
`KeyError` anywhere inside is caught and yields `default`; every other
exception propagates. -/
def cfg_get (env : Env) (c : PkgConfig) (name : String) (dflt : Value)
    (try_default_paths : Bool) (dest_path : DestOpt) (read_file : Bool) :
    LocResult :=
  match is_subconfig_file c name with
  | none => ⟨.ok dflt, c, []⟩
  | some (true, c1) =>
    let r :=
      if read_file then read_subconfig env c1 name try_default_paths dest_path
      else get_subconfig_path env c1 name try_default_paths dest_path
    match r.res with
    | .error .keyError => ⟨.ok dflt, r.cfg, r.effs⟩
    | _ => r
  | some (false, c1) =>
    match getV c1.data name with
    | some v => ⟨.ok v, c1, []⟩
    | none => ⟨.ok dflt, c1, []⟩

/-- `PkgConfig.__setitem__` / `PkgConfig.set`: `self.data[item] = value;
self._updated = True`.  Neither the `_files` memo nor anything else is
touched. -/
def PkgConfig.set (c : PkgConfig) (k : String) (v : Value) : PkgConfig :=
  { c with data := setV c.data k v, updated := true }

/-- `PkgConfig.update(**kwargs)`: shallow `self.data.update(kwargs)` plus
the dirty flag. -/
def PkgConfig.update (c : PkgConfig) (kw : List (String × Value)) : PkgConfig :=
  { c with data := kw.foldl (fun d kv => setV d kv.1 kv.2) c.data,
           updated := true }

/-- `PkgConfig.deep_update(_handlers=None, **kwargs)`:
`dict_deep_update(self.data, kwargs, handlers=...)` plus the dirty flag. -/
def PkgConfig.deep_update (c : PkgConfig) (kw : List (String × Value))
    (hs : Handlers) : Except Unit PkgConfig :=
  match dduItems hs (.vmap c.data) kw with
  | .ok (.vmap d) => .ok { c with data := d, updated := true }
  | _ => .error ()

/-- `PkgConfig.expand(path, deep=False, ...)` at the collaborator
boundary: `content` is the parsed file; merged shallowly or deeply into
`self.data`; sets the dirty flag. -/
def PkgConfig.expand (c : PkgConfig) (content : List (String × Value))
    (deep : Bool) (hs : Handlers) : Except Unit PkgConfig :=
  if deep then c.deep_update content hs
  else .ok (c.update content)

/-- `PkgConfig.replace(path=None, data=None, ...)` at the collaborator
boundary: `d` is the replacement tree (from the file or the given dict);
sets the dirty flag. -/
def PkgConfig.replace (c : PkgConfig) (d : List (String × Value)) : PkgConfig :=
  { c with data := d, updated := true }

/-! ## Layered loading, construction, `reload` -/

/-- The configuration sources `_load_init` may see, each already parsed by
the collaborator boundary:
* `explicitFile` — the content of an explicitly provided config file
  (`self.path`), which when present is the sole source;
* `base` — `params.BASE_CONFIG` (`None` when unset);
* `install` — the content of the installed data config, when that file
  exists;
* `user` — the content of the default user config file, when it exists. -/
structure LoadEnv where
  explicitFile : Option (List (String × Value))
  base : Option Value
  install : Option Value
  user : Option Value

/-- One optional layer folded into the accumulating tree:
`dict_deep_update(data, layer)` when the layer is available, the
accumulator unchanged when it is not. -/
def mergeLayer (d : Except Unit Value) (layer : Option Value) :
    Except Unit Value :=
  match d, layer with
  | .error e, _ => .error e
  | .ok d, some l => dict_deep_update d l []
  | .ok d, none => .ok d

/-- `PkgConfig._load_init`: an explicit file is the sole source; otherwise
start from `{}` and `dict_deep_update` in order the embedded base config,
the installed data config, and the user config file (each skipped when
absent).  The optional auto-creation of a missing user file writes `data`
out without changing it, so it does not appear here. -/
def load_init (lenv : LoadEnv) : Except Unit (List (String × Value)) :=
  match lenv.explicitFile with
  | some d => .ok d
  | none =>
    match mergeLayer (mergeLayer (mergeLayer (.ok (.vmap [])) lenv.base)
        lenv.install) lenv.user with
    | .ok (.vmap d) => .ok d
    | _ => .error ()

/-- `PkgConfig.__init__(path=None)`: fresh defaults (`default_paths =
['.']`, `default_download_path = '.'`, empty `_files`), the initial
layered load, and a clear dirty flag. -/
def PkgConfig.init (lenv : LoadEnv) : Except Unit PkgConfig :=
  (load_init lenv).map fun d =>
    { default_paths := ["."], default_download_path := ".",
      files := [], data := d, updated := false }

/-- `PkgConfig.reload()`: `self._files = {}`, redo `_load_init`, and set
`self._updated = True` (note: set, not cleared).  The default search and
download roots persist. -/
def PkgConfig.reload (c : PkgConfig) (lenv : LoadEnv) : Except Unit PkgConfig :=
  (load_init lenv).map fun d =>
    { c with files := [], data := d, updated := true }

/-! ## `ConfigValue` -/

/-- The state of a `ConfigValue`: the bound root key (`node`), the nested
key path, the default, the `setdefault` flag, the optional postprocessor,
and the mutable cache pair `_cached` / `_value`. -/
structure ConfigValue where
  node : String
  keys : List String
  dflt : Value
  setdef : Bool
  post : Option (Value → Value)
  cached : Bool
  val : Value

/-- Walk `self.keys` through nested values:
`if k in x: x = x[k] else: x = default; break`.  Membership in a non-dict
is modelled as failing (the claims only exercise dict nodes). -/
def walkKeys (dflt : Value) : Value → List String → Value
  | x, [] => x
  | x, k :: rest =>
    match x with
    | .vmap m =>
      match getV m k with
      | some v => walkKeys dflt v rest
      | none => dflt
    | _ => dflt

/-- `dict(self.default, **x)`: the `setdefault` merge of an extracted
dict over the default (when the default is itself a dict). -/
def setdefMerge (dflt : Value) (m : List (String × Value)) : Value :=
  match dflt with
  | .vmap dm => .vmap (m.foldl (fun acc kv => setV acc kv.1 kv.2) dm)
  | _ => .vmap m

/-- `ConfigValue._extract_from_config` (with no keyword overrides): fetch
the node via `config.get` (default `{}` when a key path is present, else
`self.default`), walk the key path, apply the `setdefault` merge and the
postprocessor, store the result into `_value` and set `_cached`. -/
def cv_extract (env : Env) (c : PkgConfig) (cv : ConfigValue) :
    Except LocErr Value × PkgConfig × ConfigValue :=
  let dArg : Value := if cv.keys.isEmpty then cv.dflt else .vmap []
  let r := cfg_get env c cv.node dArg true .noDest true
  match r.res with
  | .error e => (.error e, r.cfg, cv)
  | .ok x0 =>
    let x1 := if cv.keys.isEmpty then x0 else walkKeys cv.dflt x0 cv.keys
    let x2 :=
      match x1 with
      | .vmap m => if cv.setdef then setdefMerge cv.dflt m else x1
      | _ => x1
    let x3 := match cv.post with
      | some f => f x2
      | none => x2
    (.ok x3, r.cfg, { cv with val := x3, cached := true })

/-- `ConfigValue.value` → `_get_updated_value`: re-extract when
`config._updated or not self._cached`, else return the cached `_value`.
The final `Bool` records whether an extraction (a tree traversal) was
performed. -/
def cv_value (env : Env) (c : PkgConfig) (cv : ConfigValue) :
    Except LocErr Value × PkgConfig × ConfigValue × Bool :=
  if c.updated || !cv.cached then
    let (r, c', cv') := cv_extract env c cv
    (r, c', cv', true)
  else
    (.ok cv.val, c, cv, false)

/-! ## Well-formedness and merge-compatibility predicates -/

/-- No two entries of an association list share a key (a genuine Python
dict never does). -/
def keysNodup : List (String × Value) → Bool
  | [] => true
  | (k, _) :: rest => !(rest.any (fun kv => kv.1 = k)) && keysNodup rest

/-- Deep well-formedness of the entries of an update mapping: every
nested mapping value has `keysNodup` keys, recursively.  (Values inside
lists are never recursed into by the merge, so they are unconstrained.) -/
def wfEntries : List (String × Value) → Bool
  | [] => true
  | (_, .vmap vs) :: rest => keysNodup vs && wfEntries vs && wfEntries rest
  | _ :: rest => wfEntries rest
termination_by items => sizeOf items
decreasing_by
  all_goals simp_wf
  all_goals simp_arith [sizeOf]

/-- A well-formed update argument: a mapping, deeply `keysNodup`. -/
def wfUpd : Value → Bool
  | .vmap us => keysNodup us && wfEntries us
  | _ => false

/-- Merge compatibility: the condition under which `dduItems` cannot hit
its error case — wherever the update holds a mapping value, the original
holds a mapping (or nothing, or the update sub-mapping is empty) at that
key, recursively. -/
def mergeOkItems : Value → List (String × Value) → Bool
  | _, [] => true
  | d, (k, v) :: rest =>
    match d with
    | .vmap dm =>
      (match v with
       | .vmap vs => mergeOkItems ((getV dm k).getD (.vmap [])) vs
       | _ => true) && mergeOkItems d rest
    | _ => false
termination_by _ items => sizeOf items
decreasing_by
  all_goals simp_wf
  all_goals simp_arith [sizeOf]

/-- Merge compatibility of `dict_deep_update d u`. -/
def mergeOk (d u : Value) : Bool :=
  match u with
  | .vmap us => mergeOkItems d us
  | _ => false

/-! ## Basic lemmas about the association-list dictionary model -/

theorem getV_setV_self (l : List (String × Value)) (k : String) (v : Value) :
    getV (setV l k v) k = some v := by
  induction l with
  | nil => simp [getV, setV]
  | cons hd tl ih =>
    obtain ⟨k', v'⟩ := hd
    by_cases h : k' = k <;> simp [getV, setV, h, ih]

theorem getV_setV_ne (l : List (String × Value)) (k k' : String) (v : Value)
    (h : k ≠ k') : getV (setV l k v) k' = getV l k' := by
  induction l with
  | nil => simp [getV, setV, h]
  | cons hd tl ih =>
    obtain ⟨k₀, v₀⟩ := hd
    by_cases h₀ : k₀ = k
    · subst h₀; simp [getV, setV, h]
    · simp only [setV, if_neg h₀, getV]
      by_cases h₁ : k₀ = k' <;> simp [h₁, ih]

theorem setV_getV_eq (l : List (String × Value)) (k : String) (v : Value)
    (h : getV l k = some v) : setV l k v = l := by
  induction l with
  | nil => simp [getV] at h
  | cons hd tl ih =>
    obtain ⟨k₀, v₀⟩ := hd
    by_cases h₀ : k₀ = k
    · subst h₀
      simp only [getV, if_true, eq_self_iff_true, Option.some.injEq] at h
      subst h
      simp [setV]
    · simp only [getV, if_neg h₀] at h
      simp [setV, h₀, ih h]

theorem setV_setV (l : List (String × Value)) (k : String) (v w : Value) :
    setV (setV l k v) k w = setV l k w := by
  induction l with
  | nil => simp [setV]
  | cons hd tl ih =>
    obtain ⟨k₀, v₀⟩ := hd
    by_cases h₀ : k₀ = k <;> simp [setV, h₀, ih]

theorem getB_setB_self (l : List (String × Bool)) (k : String) (b : Bool) :
    getB (setB l k b) k = some b := by
  induction l with
  | nil => simp [getB, setB]
  | cons hd tl ih =>
    obtain ⟨k', b'⟩ := hd
    by_cases h : k' = k <;> simp [getB, setB, h, ih]

theorem setB_setB (l : List (String × Bool)) (k : String) (b b' : Bool) :
    setB (setB l k b) k b' = setB l k b' := by
  induction l with
  | nil => simp [setB]
  | cons hd tl ih =>
    obtain ⟨k₀, b₀⟩ := hd
    by_cases h₀ : k₀ = k <;> simp [setB, h₀, ih]

/-! ## Lemmas about the search loop -/

/-- As long as every directory in `tried` is one whose candidate already
failed, the parent-deduplicating search loop returns exactly the first
candidate (in list order) that exists: a pure first-match policy. -/
theorem searchLoop_find (env : Env) (fn : String) :
    ∀ (p : List String) (tried : List (List String)),
      (∀ t ∈ tried, env.fileExists (t ++ [fn]) = false) →
      (searchLoop env fn p tried).1
        = (p.map (fun r => env.resolve r ++ [fn])).find? env.fileExists := by
  intro p
  induction p with
  | nil => intro tried _; simp [searchLoop]
  | cons r rest ih =>
    intro tried h
    simp only [searchLoop, List.map_cons]
    by_cases hm : env.resolve r ∈ tried
    · have hex : env.fileExists (env.resolve r ++ [fn]) = false := h _ hm
      rw [if_pos hm, List.find?_cons_of_neg _ (by simp [hex]), ih tried h]
    · rw [if_neg hm]
      by_cases hex : env.fileExists (env.resolve r ++ [fn])
      · rw [List.find?_cons_of_pos _ hex]
        simp [hex]
      · rw [List.find?_cons_of_neg _ hex]
        have hex' : env.fileExists (env.resolve r ++ [fn]) = false :=
          eq_false_of_ne_true hex
        have h' : ∀ t ∈ env.resolve r :: tried,
            env.fileExists (t ++ [fn]) = false := by
          intro t ht
          rcases List.mem_cons.mp ht with h₁ | h₂
          · rw [h₁]; exact hex'
          · exact h _ h₂
        simp [hex', ih (env.resolve r :: tried) h']

/-! ## Lemmas about `is_subconfig_file` -/

/-- `is_subconfig_file` only ever touches the `_files` memo: the tree,
the default roots and the dirty flag of the returned config are those of
the input. -/
theorem is_subconfig_file_fields {c : PkgConfig} {name : String} {b : Bool}
    {c₁ : PkgConfig} (h : is_subconfig_file c name = some (b, c₁)) :
    c₁.data = c.data ∧ c₁.default_paths = c.default_paths ∧
    c₁.default_download_path = c.default_download_path ∧
    c₁.updated = c.updated := by
  cases hx : getV c.data name with
  | none => simp [is_subconfig_file, hx] at h
  | some x =>
    cases x <;> simp [is_subconfig_file, hx] at h
    case vmap m =>
      cases hv : isFileRaw c m name <;> simp [hv] at h <;>
        (obtain ⟨h₁, h₂⟩ := h; rw [← h₂]) <;> simp
    all_goals (obtain ⟨h₁, h₂⟩ := h; rw [← h₂]; simp)

/-- A second call to `is_subconfig_file` right after a first returns the
same classification and leaves the config unchanged (the memo absorbs
repetition). -/
theorem is_subconfig_file_idem {c : PkgConfig} {name : String} {b : Bool}
    {c₁ : PkgConfig} (h : is_subconfig_file c name = some (b, c₁)) :
    is_subconfig_file c₁ name = some (b, c₁) := by
  have hdata := (is_subconfig_file_fields h).1
  cases hx : getV c.data name with
  | none => simp [is_subconfig_file, hx] at h
  | some x =>
    cases x <;> simp [is_subconfig_file, hx] at h
    case vmap m =>
      cases hisf : getV m "is_file" with
      | some v =>
        have hv : ∀ c' : PkgConfig, isFileRaw c' m name = v := by
          intro c'; simp [isFileRaw, hisf]
        rw [hv c] at h
        cases v
        case vnone =>
          simp at h
          obtain ⟨h₁, h₂⟩ := h
          subst h₂
          simp [is_subconfig_file, hx, hv, setB_setB, h₁]
        all_goals
          (simp [truthy] at h
           obtain ⟨h₁, h₂⟩ := h
           subst h₂
           simp [is_subconfig_file, hx, hv, truthy, h₁])
      | none =>
        cases hmem : getB c.files name with
        | some bm =>
          have hv : isFileRaw c m name = .vbool bm := by
            simp [isFileRaw, hisf, hmem]
          rw [hv] at h
          simp [truthy] at h
          obtain ⟨h₁, h₂⟩ := h
          subst h₂
          simp [is_subconfig_file, hx, hv, truthy, h₁]
        | none =>
          have hv : isFileRaw c m name = .vnone := by
            simp [isFileRaw, hisf, hmem]
          rw [hv] at h
          simp at h
          obtain ⟨h₁, h₂⟩ := h
          subst h₂
          subst h₁
          have hv₁ : isFileRaw
              { c with files := setB c.files name (keyShapeIsFile m) } m name
              = .vbool (keyShapeIsFile m) := by
            simp [isFileRaw, hisf, getB_setB_self]
          simp [is_subconfig_file, hx, hv₁, truthy]
    all_goals
      (obtain ⟨h₁, h₂⟩ := h
       subst h₂
       simp [is_subconfig_file, hx, h₁])

end PkgCfg

namespace PkgCfg

/-! ## Claims -/

/-- A concrete environment for witnesses: resolution is the identity on a
single segment, no file exists, downloads land under the url name, and
parsing is the identity. -/
def envW : Env :=
  ⟨fun s => [s], fun _ => false, fun u _ _ => [u], fun v => v⟩

/-- Claim C1: for a key whose descriptor already has `_path` set (and which
classifies as a sub-config file), `get_subconfig_path` returns exactly the
stored `_path` value with an empty effect trace — no existence test and no
download — and leaves the tree unchanged, so a repeated call returns the
same stored value again. -/
theorem C1_cached_path_stable (env : Env) (c c₁ : PkgConfig) (name : String)
    (tdp : Bool) (dp : DestOpt) (m : List (String × Value)) (pv : Value)
    (hclass : is_subconfig_file c name = some (true, c₁))
    (hm : getV c.data name = some (.vmap m))
    (hp : getV m "_path" = some pv) :
    get_subconfig_path env c name tdp dp = ⟨.ok pv, c₁, []⟩ ∧
    c₁.data = c.data ∧
    get_subconfig_path env c₁ name tdp dp = ⟨.ok pv, c₁, []⟩ := by
  have hdata := (is_subconfig_file_fields hclass).1
  have hidem := is_subconfig_file_idem hclass
  refine ⟨?_, hdata, ?_⟩
  · simp [get_subconfig_path, hclass, hdata, hm, hp]
  · simp [get_subconfig_path, hidem, hdata, hm, hp]

/-- The C1 witness config: a descriptor with a cached `_path`. -/
def cC1 : PkgConfig :=
  ⟨["."], ".", [], [("k", .vmap [("_path", .vpath ["p", "f"])])], false⟩

/-- The C1 witness config after the classification memo is filled. -/
def cC1m : PkgConfig :=
  ⟨["."], ".", [("k", true)], [("k", .vmap [("_path", .vpath ["p", "f"])])], false⟩

/-- Witness for C1 at a concrete cached descriptor. -/
theorem C1_cached_path_stable_witness :
    get_subconfig_path envW cC1 "k" true .noDest
        = ⟨.ok (.vpath ["p", "f"]), cC1m, []⟩ ∧
    cC1m.data = cC1.data ∧
    get_subconfig_path envW cC1m "k" true .noDest
        = ⟨.ok (.vpath ["p", "f"]), cC1m, []⟩ :=
  C1_cached_path_stable envW cC1 cC1m "k" true .noDest
    [("_path", .vpath ["p", "f"])] (.vpath ["p", "f"])
    (by rfl) (by rfl) (by rfl)

/-- The candidate root list `p` that `get_subconfig_path` searches, as a
function of the descriptor and `try_default_paths`: the descriptor's own
`paths` (with the default roots appended when `try_default_paths`), else
the default roots. -/
def candidateRoots (c : PkgConfig) (m : List (String × Value)) (tdp : Bool) :
    Option (List String) :=
  match getV m "paths" with
  | some (.vlist l) =>
    match asStrings l with
    | some roots => some (if tdp then roots ++ c.default_paths else roots)
    | none => none
  | some _ => none
  | none => some c.default_paths

/-- The returned value / raised error of the search phase, which depends
only on the candidate roots, the file name, the key and `dest_path`. -/
def searchRes (env : Env) (name fn : String) (p : List String)
    (dp : DestOpt) : Except LocErr Value :=
  match (searchLoop env fn p []).1 with
  | some fp => .ok (.vpath fp)
  | none =>
    match dp with
    | .noDest => .error (.fileNotFound fn name p)
    | .destTrue =>
      match p with
      | [] => .error .indexError
      | r :: _ => .ok (.vpath (env.resolve r ++ [fn]))
    | .destDir d => .ok (.vpath (env.resolve d ++ [fn]))

theorem searchFinish_res (env : Env) (c : PkgConfig) (name : String)
    (m : List (String × Value)) (fn : String) (p : List String)
    (dp : DestOpt) :
    (searchFinish env c name m fn p dp).res = searchRes env name fn p dp := by
  rcases hsl : searchLoop env fn p [] with ⟨found, effs⟩
  cases found with
  | some fp => simp [searchFinish, searchRes, hsl]
  | none =>
    cases dp with
    | noDest => simp [searchFinish, searchRes, hsl]
    | destTrue => cases p <;> simp [searchFinish, searchRes, hsl]
    | destDir d => simp [searchFinish, searchRes, hsl]

/-- For an uncached (`_path` absent), url-free descriptor, the result of
`get_subconfig_path` is the search over the candidate roots. -/
theorem get_subconfig_path_res_eq (env : Env) (c c₁ : PkgConfig)
    (name : String) (tdp : Bool) (dp : DestOpt) (m : List (String × Value))
    (fn : String) (p : List String)
    (hclass : is_subconfig_file c name = some (true, c₁))
    (hm : getV c.data name = some (.vmap m))
    (hp : getV m "_path" = none)
    (hf : fnameOf m name = some fn)
    (hu : (getV m "url").getD .vnone = .vnone)
    (hroots : candidateRoots c m tdp = some p) :
    (get_subconfig_path env c name tdp dp).res = searchRes env name fn p dp := by
  have hdata := (is_subconfig_file_fields hclass).1
  have hdp := (is_subconfig_file_fields hclass).2.1
  cases hpaths : getV m "paths" with
  | none =>
    simp only [candidateRoots, hpaths, Option.some.injEq] at hroots
    subst hroots
    simp [get_subconfig_path, hclass, hdata, hm, hp, hf, hu, hpaths, hdp,
      searchFinish_res]
  | some pv =>
    cases pv
    case vlist l =>
      cases hstr : asStrings l with
      | none => simp [candidateRoots, hpaths, hstr] at hroots
      | some roots =>
        simp only [candidateRoots, hpaths, hstr, Option.some.injEq] at hroots
        subst hroots
        cases tdp <;>
          simp [get_subconfig_path, hclass, hdata, hm, hp, hf, hu, hpaths,
            hstr, hdp, searchFinish_res]
    all_goals simp [candidateRoots, hpaths] at hroots

/-- Claim C3: resolving an uncached, url-free descriptor tries the
candidate roots in list order and the first root whose `root / name`
exists wins: the result is exactly the first existing candidate, so a root
that precedes another always shadows it. -/
theorem C3_first_match (env : Env) (c c₁ : PkgConfig) (name : String)
    (tdp : Bool) (dp : DestOpt) (m : List (String × Value)) (fn : String)
    (p : List String) (fp : List String)
    (hclass : is_subconfig_file c name = some (true, c₁))
    (hm : getV c.data name = some (.vmap m))
    (hp : getV m "_path" = none)
    (hf : fnameOf m name = some fn)
    (hu : (getV m "url").getD .vnone = .vnone)
    (hroots : candidateRoots c m tdp = some p)
    (hfind : (p.map (fun r => env.resolve r ++ [fn])).find? env.fileExists
        = some fp) :
    (get_subconfig_path env c name tdp dp).res = .ok (.vpath fp) := by
  rw [get_subconfig_path_res_eq env c c₁ name tdp dp m fn p hclass hm hp hf
    hu hroots]
  rw [searchRes.eq_def, searchLoop_find env fn p [] (by simp), hfind]

/-- Claim C4: when no candidate root contains the file — with `dest_path`
absent the resolution raises the not-found error carrying the file name,
the key, and the full candidate list; with a directory `dest_path` it
returns `dest_path / name` with no existence requirement; with
`dest_path=True` it returns `first-candidate-root / name`. -/
theorem C4_not_found (env : Env) (c c₁ : PkgConfig) (name : String)
    (tdp : Bool) (m : List (String × Value)) (fn : String) (p : List String)
    (hclass : is_subconfig_file c name = some (true, c₁))
    (hm : getV c.data name = some (.vmap m))
    (hp : getV m "_path" = none)
    (hf : fnameOf m name = some fn)
    (hu : (getV m "url").getD .vnone = .vnone)
    (hroots : candidateRoots c m tdp = some p)
    (hnone : ∀ r ∈ p, env.fileExists (env.resolve r ++ [fn]) = false) :
    (get_subconfig_path env c name tdp .noDest).res
        = .error (.fileNotFound fn name p) ∧
    (∀ d, (get_subconfig_path env c name tdp (.destDir d)).res
        = .ok (.vpath (env.resolve d ++ [fn]))) ∧
    (∀ r rest, p = r :: rest →
      (get_subconfig_path env c name tdp .destTrue).res
        = .ok (.vpath (env.resolve r ++ [fn]))) := by
  have hfind : (p.map (fun r => env.resolve r ++ [fn])).find? env.fileExists
      = none := by
    rw [List.find?_eq_none]
    intro x hx
    rcases List.mem_map.mp hx with ⟨r, hr, hxr⟩
    subst hxr
    simp [hnone r hr]
  refine ⟨?_, ?_, ?_⟩
  · rw [get_subconfig_path_res_eq env c c₁ name tdp .noDest m fn p hclass hm
      hp hf hu hroots]
    rw [searchRes.eq_def, searchLoop_find env fn p [] (by simp), hfind]
  · intro d
    rw [get_subconfig_path_res_eq env c c₁ name tdp (.destDir d) m fn p
      hclass hm hp hf hu hroots]
    rw [searchRes.eq_def, searchLoop_find env fn p [] (by simp), hfind]
  · intro r rest hpr
    rw [get_subconfig_path_res_eq env c c₁ name tdp .destTrue m fn p hclass
      hm hp hf hu hroots]
    rw [searchRes.eq_def, searchLoop_find env fn p [] (by simp), hfind, hpr]

/-- Claim C2: a `PkgConfig` constructed without an explicit path merges the
embedded base config, the installed data config and the user config file in
that order, later layers winning on conflicts: base `{a:1, b:1}`, installed
`{b:2, c:2}`, user `{c:3}` yield the tree `{a:1, b:2, c:3}`. -/
theorem C2_layered_merge :
    PkgConfig.init ⟨none,
        some (.vmap [("a", .vint 1), ("b", .vint 1)]),
        some (.vmap [("b", .vint 2), ("c", .vint 2)]),
        some (.vmap [("c", .vint 3)])⟩
      = .ok ⟨["."], ".", [],
          [("a", .vint 1), ("b", .vint 2), ("c", .vint 3)], false⟩ := by
  simp [PkgConfig.init, load_init, mergeLayer, dict_deep_update, dduItems,
    getV, setV, lookupHandler, typeOf, Except.map]

end PkgCfg

namespace PkgCfg

/-- The C3/C4 witness config: a descriptor with a name and two roots. -/
def cC3 : PkgConfig :=
  ⟨["."], ".", [],
    [("k", .vmap [("name", .vstr "f"),
                  ("paths", .vlist [.vstr "r1", .vstr "r2"])])], false⟩

/-- `cC3` after the classification memo is filled. -/
def cC3m : PkgConfig :=
  ⟨["."], ".", [("k", true)],
    [("k", .vmap [("name", .vstr "f"),
                  ("paths", .vlist [.vstr "r1", .vstr "r2"])])], false⟩

/-- An environment where both witness roots contain the file. -/
def envC3 : Env :=
  ⟨fun s => [s], fun p => p == ["r1", "f"] || p == ["r2", "f"],
   fun u _ _ => [u], fun v => v⟩

/-- Witness for C3: with both `r1/f` and `r2/f` existing, resolution
returns `r1/f`, the first match. -/
theorem C3_first_match_witness :
    (get_subconfig_path envC3 cC3 "k" true .noDest).res
      = .ok (.vpath ["r1", "f"]) :=
  C3_first_match envC3 cC3 cC3m "k" true .noDest
    [("name", .vstr "f"), ("paths", .vlist [.vstr "r1", .vstr "r2"])]
    "f" ["r1", "r2", "."] ["r1", "f"]
    (by rfl) (by rfl) (by rfl) (by rfl) (by rfl) (by rfl) (by rfl)

/-- Witness for C4: with no root containing the file, the three
`dest_path` modes behave as claimed. -/
theorem C4_not_found_witness :
    (get_subconfig_path envW cC3 "k" true .noDest).res
        = .error (.fileNotFound "f" "k" ["r1", "r2", "."]) ∧
    (get_subconfig_path envW cC3 "k" true (.destDir "D")).res
        = .ok (.vpath ["D", "f"]) ∧
    (get_subconfig_path envW cC3 "k" true .destTrue).res
        = .ok (.vpath ["r1", "f"]) := by
  have h := C4_not_found envW cC3 cC3m "k" true
    [("name", .vstr "f"), ("paths", .vlist [.vstr "r1", .vstr "r2"])]
    "f" ["r1", "r2", "."]
    (by rfl) (by rfl) (by rfl) (by rfl) (by rfl) (by rfl)
    (by intro r hr; rfl)
  exact ⟨h.1, h.2.1 "D", h.2.2 "r1" ["r2", "."] rfl⟩

/-! ## The in-place `paths` mutation (C9) -/

theorem asStrings_map_vstr (xs : List String) :
    asStrings (xs.map .vstr) = some xs := by
  induction xs with
  | nil => rfl
  | cons x xs ih => simp [asStrings, ih]

theorem asStrings_append_vstr (l : List Value) (roots xs : List String)
    (h : asStrings l = some roots) :
    asStrings (l ++ xs.map .vstr) = some (roots ++ xs) := by
  induction l generalizing roots with
  | nil =>
    simp only [asStrings, Option.some.injEq] at h
    subst h
    simp [asStrings_map_vstr]
  | cons v l ih =>
    cases v <;> simp [asStrings] at h
    case vstr s =>
      obtain ⟨rs, hrs, hcons⟩ := h
      subst hcons
      simp [asStrings, ih rs hrs]

/-- One resolving call on an uncached, url-free descriptor with its own
`paths` list and `try_default_paths`, when the search misses everywhere
and a directory `dest_path` is given: the call succeeds with the
synthesized path, and the descriptor stored in the tree now carries
`paths + default_paths` — the in-place list mutation — while `_path`
stays unset. -/
theorem get_subconfig_path_paths_growth (env : Env) (c : PkgConfig)
    (name : String) (m : List (String × Value)) (fn : String)
    (l : List Value) (roots : List String) (d : String)
    (hfile : getB c.files name = some true)
    (hisf : getV m "is_file" = none)
    (hm : getV c.data name = some (.vmap m))
    (hp : getV m "_path" = none)
    (hf : fnameOf m name = some fn)
    (hu : (getV m "url").getD .vnone = .vnone)
    (hpaths : getV m "paths" = some (.vlist l))
    (hstr : asStrings l = some roots)
    (hnone : ∀ r ∈ roots ++ c.default_paths,
      env.fileExists (env.resolve r ++ [fn]) = false) :
    (get_subconfig_path env c name true (.destDir d)).res
        = .ok (.vpath (env.resolve d ++ [fn])) ∧
    (get_subconfig_path env c name true (.destDir d)).cfg
        = { c with data := (setV c.data name
            (.vmap (setV m "paths"
              (.vlist (l ++ c.default_paths.map Value.vstr))))) } := by
  have hclass : is_subconfig_file c name = some (true, c) := by
    simp [is_subconfig_file, hm, isFileRaw, hisf, hfile, truthy]
  have hfind : ((roots ++ c.default_paths).map
      (fun r => env.resolve r ++ [fn])).find? env.fileExists = none := by
    rw [List.find?_eq_none]
    intro x hx
    rcases List.mem_map.mp hx with ⟨r, hr, hxr⟩
    subst hxr
    simp [hnone r hr]
  rcases hsl : searchLoop env fn (roots ++ c.default_paths) []
    with ⟨found, effs⟩
  have hfound : found = none := by
    have hlf := searchLoop_find env fn (roots ++ c.default_paths) [] (by simp)
    rw [hfind, hsl] at hlf
    exact hlf
  subst hfound
  constructor <;>
    simp [get_subconfig_path, hclass, hm, hp, hf, hu, hpaths, hstr,
      searchFinish, hsl]

/-- Claim C9: on an uncached, url-free descriptor with its own `paths`
list, a `try_default_paths` resolution appends the config's default roots
onto the list stored in the tree (the in-place `p += self.default_paths`),
making it strictly longer; a second call on the still-unresolved
descriptor appends them again. -/
theorem C9_paths_appended_in_place (env : Env) (c : PkgConfig)
    (name : String) (m : List (String × Value)) (fn : String)
    (l : List Value) (roots : List String) (d : String)
    (hfile : getB c.files name = some true)
    (hisf : getV m "is_file" = none)
    (hm : getV c.data name = some (.vmap m))
    (hp : getV m "_path" = none)
    (hf : fnameOf m name = some fn)
    (hu : (getV m "url").getD .vnone = .vnone)
    (hpaths : getV m "paths" = some (.vlist l))
    (hstr : asStrings l = some roots)
    (hne : c.default_paths ≠ [])
    (hnone : ∀ r ∈ roots ++ c.default_paths,
      env.fileExists (env.resolve r ++ [fn]) = false) :
    getV (get_subconfig_path env c name true (.destDir d)).cfg.data name
        = some (.vmap (setV m "paths"
            (.vlist (l ++ c.default_paths.map Value.vstr)))) ∧
    (l ++ c.default_paths.map Value.vstr).length > l.length ∧
    getV (get_subconfig_path env
          (get_subconfig_path env c name true (.destDir d)).cfg
          name true (.destDir d)).cfg.data name
        = some (.vmap (setV m "paths"
            (.vlist ((l ++ c.default_paths.map Value.vstr)
                      ++ c.default_paths.map Value.vstr)))) := by
  have h₁ := get_subconfig_path_paths_growth env c name m fn l roots d
    hfile hisf hm hp hf hu hpaths hstr hnone
  have hcfg := h₁.2
  have hget₁ : getV (get_subconfig_path env c name true (.destDir d)).cfg.data
      name = some (.vmap (setV m "paths"
        (.vlist (l ++ c.default_paths.map Value.vstr)))) := by
    rw [hcfg]
    exact getV_setV_self _ _ _
  have hlen : (l ++ c.default_paths.map Value.vstr).length > l.length := by
    have hpos : 0 < c.default_paths.length := List.length_pos.mpr hne
    simp only [List.length_append, List.length_map]
    omega
  refine ⟨hget₁, hlen, ?_⟩
  have hfile₂ : getB (get_subconfig_path env c name true
      (.destDir d)).cfg.files name = some true := by
    rw [hcfg]; exact hfile
  have hisf₂ : getV (setV m "paths"
      (.vlist (l ++ c.default_paths.map Value.vstr))) "is_file" = none := by
    rw [getV_setV_ne m "paths" "is_file" _ (by decide)]; exact hisf
  have hp₂ : getV (setV m "paths"
      (.vlist (l ++ c.default_paths.map Value.vstr))) "_path" = none := by
    rw [getV_setV_ne m "paths" "_path" _ (by decide)]; exact hp
  have hf₂ : fnameOf (setV m "paths"
      (.vlist (l ++ c.default_paths.map Value.vstr))) name = some fn := by
    unfold fnameOf at hf ⊢
    rw [getV_setV_ne m "paths" "name" _ (by decide)]
    exact hf
  have hu₂ : (getV (setV m "paths"
      (.vlist (l ++ c.default_paths.map Value.vstr))) "url").getD .vnone
      = .vnone := by
    rw [getV_setV_ne m "paths" "url" _ (by decide)]; exact hu
  have hpaths₂ : getV (setV m "paths"
      (.vlist (l ++ c.default_paths.map Value.vstr))) "paths"
      = some (.vlist (l ++ c.default_paths.map Value.vstr)) :=
    getV_setV_self _ _ _
  have hstr₂ := asStrings_append_vstr l roots c.default_paths hstr
  have hdefp : (get_subconfig_path env c name true
      (.destDir d)).cfg.default_paths = c.default_paths := by
    rw [hcfg]
  have hnone₂ : ∀ r ∈ (roots ++ c.default_paths) ++
      (get_subconfig_path env c name true (.destDir d)).cfg.default_paths,
      env.fileExists (env.resolve r ++ [fn]) = false := by
    rw [hdefp]
    intro r hr
    rcases List.mem_append.mp hr with hr | hr
    · exact hnone r hr
    · exact hnone r (List.mem_append.mpr (Or.inr hr))
  have h₂ := get_subconfig_path_paths_growth env
    ((get_subconfig_path env c name true (.destDir d)).cfg) name
    (setV m "paths" (.vlist (l ++ c.default_paths.map Value.vstr))) fn
    (l ++ c.default_paths.map Value.vstr) (roots ++ c.default_paths) d
    hfile₂ hisf₂ hget₁ hp₂ hf₂ hu₂ hpaths₂ hstr₂ hnone₂
  rw [h₂.2]
  simp only [hdefp, hcfg]
  simp [getV_setV_self, setV_setV]

end PkgCfg

namespace PkgCfg

/-- Witness for C9: two resolving calls on a concrete descriptor leave
`paths` as `[r1, r2, '.']` and then `[r1, r2, '.', '.']` in the tree. -/
theorem C9_paths_appended_in_place_witness :
    getV (get_subconfig_path envW cC3m "k" true (.destDir "D")).cfg.data "k"
        = some (.vmap [("name", .vstr "f"),
            ("paths", .vlist [.vstr "r1", .vstr "r2", .vstr "."])]) ∧
    ([Value.vstr "r1", Value.vstr "r2"]
        ++ (["."].map Value.vstr)).length > 2 ∧
    getV (get_subconfig_path envW
          (get_subconfig_path envW cC3m "k" true (.destDir "D")).cfg
          "k" true (.destDir "D")).cfg.data "k"
        = some (.vmap [("name", .vstr "f"),
            ("paths", .vlist [.vstr "r1", .vstr "r2", .vstr ".",
                              .vstr "."])]) := by
  have h := C9_paths_appended_in_place envW cC3m "k"
    [("name", .vstr "f"), ("paths", .vlist [.vstr "r1", .vstr "r2"])]
    "f" [.vstr "r1", .vstr "r2"] ["r1", "r2"] "D"
    rfl rfl rfl rfl rfl rfl rfl rfl (by decide) (fun r hr => rfl)
  refine ⟨?_, by decide, ?_⟩
  · have h₁ := h.1
    simpa [setV] using h₁
  · have h₃ := h.2.2
    simpa [setV] using h₃

end PkgCfg

namespace PkgCfg

/-! ## Classification of descriptor-keyed sub-maps (C7) -/

/-- The C7 counterexample config: key `k` holds an empty sub-map, which
contains none of `name`, `url`, `paths` and no `is_file` flag. -/
def cC7 : PkgConfig := ⟨["."], ".", [], [("k", .vmap [])], false⟩

/-- Counterexample to claim C7: the empty sub-map — which contains none
of `name`, `url`, `paths` and carries no explicit `is_file` — is
classified as a sub-config file (`is_subconfig_file` returns `true`, the
claim says `False`), and `get` consequently attempts resource resolution
(here raising the not-found error) instead of returning the sub-map as a
plain value. -/
theorem C7_counterexample :
    (is_subconfig_file cC7 "k").map Prod.fst = some true ∧
    (cfg_get envW cC7 "k" .vnone true .noDest true).res
      = .error (.fileNotFound "k" "k" ["."]) := ⟨rfl, rfl⟩

/-- Claim C7 amended: a sub-map value with no explicit `is_file` and no
memoized classification is classified by the subset rule — it is a
sub-config file iff all its keys lie in the recognized descriptor fields
(so an empty sub-map or one holding only `download_dest` is classified
`True` and resolution is attempted); only when some key falls outside the
recognized set is it classified `False`, and `get` then returns the
sub-map as a plain value. -/
theorem C7_amended_subset_rule (c : PkgConfig) (k : String)
    (m : List (String × Value))
    (hm : getV c.data k = some (.vmap m))
    (hisf : getV m "is_file" = none)
    (hmem : getB c.files k = none) :
    is_subconfig_file c k
      = some (keyShapeIsFile m,
          { c with files := setB c.files k (keyShapeIsFile m) }) ∧
    (keyShapeIsFile m = false →
      ∀ (env : Env) (dflt : Value) (tdp : Bool) (dp : DestOpt) (rf : Bool),
        cfg_get env c k dflt tdp dp rf
          = ⟨.ok (.vmap m), { c with files := setB c.files k false }, []⟩) := by
  have h₁ : is_subconfig_file c k
      = some (keyShapeIsFile m,
          { c with files := setB c.files k (keyShapeIsFile m) }) := by
    simp [is_subconfig_file, hm, isFileRaw, hisf, hmem]
  refine ⟨h₁, ?_⟩
  intro hfalse env dflt tdp dp rf
  rw [hfalse] at h₁
  simp [cfg_get, h₁, hm]

/-- The C7 amended-claim witness config: key `k` holds a sub-map with the
unrecognized key `zz`. -/
def cC7b : PkgConfig := ⟨["."], ".", [], [("k", .vmap [("zz", .vint 1)])], false⟩

/-- Witness for the amended C7 at both branch shapes. -/
theorem C7_amended_subset_rule_witness :
    is_subconfig_file cC7b "k"
      = some (false, ⟨["."], ".", [("k", false)],
          [("k", .vmap [("zz", .vint 1)])], false⟩) ∧
    cfg_get envW cC7b "k" .vnone true .noDest true
      = ⟨.ok (.vmap [("zz", .vint 1)]), ⟨["."], ".", [("k", false)],
          [("k", .vmap [("zz", .vint 1)])], false⟩, []⟩ := by
  have h := C7_amended_subset_rule cC7b "k" [("zz", .vint 1)] rfl rfl rfl
  constructor
  · have h₁ := h.1
    simpa [keyShapeIsFile, recognizedKeys, setB, cC7b] using h₁
  · have h₂ := h.2 (by rfl) envW .vnone true .noDest true
    simpa [setB, cC7b] using h₂

/-! ## The `_files` memo across mutations (C10) -/

/-- `deep_update` never touches the `_files` memo. -/
theorem deep_update_files (c c' : PkgConfig) (kw : List (String × Value))
    (hs : Handlers) (h : c.deep_update kw hs = .ok c') :
    c'.files = c.files := by
  unfold PkgConfig.deep_update at h
  split at h <;> simp_all
  rename_i d hd
  rw [← h]

/-- Claim C10: the inferred classification memo `_files` is cleared by
nothing except `reload` — `set`, `update`, `deep_update`, `expand` and
`replace` all leave it intact — so after `set(k, v)` replaces `k`'s value
with a sub-map of the opposite shape (no explicit `is_file`), both
`is_subconfig_file` and `get` keep acting on the stale memoized
classification. -/
theorem C10_files_memo_stale (env : Env) (c : PkgConfig) (k : String)
    (b : Bool) (v : Value) (m : List (String × Value)) (dflt : Value)
    (tdp : Bool) (dp : DestOpt) (rf : Bool)
    (kw content d : List (String × Value)) (hs : Handlers) (lenv : LoadEnv)
    (dpth : Bool)
    (hmemo : getB c.files k = some b)
    (hv : v = .vmap m)
    (hisf : getV m "is_file" = none) :
    is_subconfig_file (c.set k v) k = some (b, c.set k v) ∧
    (c.set k v).files = c.files ∧
    (c.update kw).files = c.files ∧
    (c.replace d).files = c.files ∧
    (∀ c', c.deep_update kw hs = .ok c' → c'.files = c.files) ∧
    (∀ c', c.expand content dpth hs = .ok c' → c'.files = c.files) ∧
    (∀ cr, c.reload lenv = .ok cr → cr.files = []) ∧
    (b = false → cfg_get env (c.set k v) k dflt tdp dp rf
        = ⟨.ok v, c.set k v, []⟩) := by
  subst hv
  have hclass : is_subconfig_file (c.set k (.vmap m)) k
      = some (b, c.set k (.vmap m)) := by
    simp [is_subconfig_file, PkgConfig.set, getV_setV_self, isFileRaw, hisf,
      hmemo, truthy]
  refine ⟨hclass, rfl, rfl, rfl, ?_, ?_, ?_, ?_⟩
  · intro c' h
    exact deep_update_files c c' kw hs h
  · intro c' h
    unfold PkgConfig.expand at h
    split at h
    · exact deep_update_files c c' content hs h
    · simp only [Except.ok.injEq] at h
      rw [← h]
      rfl
  · intro cr h
    unfold PkgConfig.reload at h
    cases hli : load_init lenv <;> rw [hli] at h <;> simp [Except.map] at h
    rw [← h]
  · intro hb
    subst hb
    have hclass₂ := hclass
    simp only [PkgConfig.set] at hclass₂ ⊢
    simp [cfg_get, hclass₂, getV_setV_self]

/-- The C10 witness config: `k` is memoized as a plain (non-file) entry. -/
def cC10 : PkgConfig :=
  ⟨["."], ".", [("k", false)], [("k", .vmap [("a", .vint 1), ("zz", .vint 2)])], true⟩

/-- The resource-shaped replacement value used in the C10 witness. -/
def vC10 : Value := .vmap [("name", .vstr "f")]

/-- Witness for C10: after `set` replaces `k` with a resource-shaped
sub-map, classification and `get` still follow the stale memo. -/
theorem C10_files_memo_stale_witness :
    is_subconfig_file (cC10.set "k" vC10) "k" = some (false, cC10.set "k" vC10) ∧
    cfg_get envW (cC10.set "k" vC10) "k" .vnone true .noDest true
        = ⟨.ok vC10, cC10.set "k" vC10, []⟩ ∧
    (cC10.set "k" vC10).files = cC10.files := by
  have h := C10_files_memo_stale envW cC10 "k" false vC10
    [("name", .vstr "f")] .vnone true .noDest true [] [] [] []
    ⟨none, none, none, none⟩ false rfl rfl rfl
  exact ⟨h.1, h.2.2.2.2.2.2.2 rfl, h.2.1⟩

end PkgCfg

namespace PkgCfg

/-! ## Dirty-flag tracking (C6) -/

theorem searchFinish_updated (env : Env) (c : PkgConfig) (name : String)
    (m : List (String × Value)) (fn : String) (p : List String)
    (dp : DestOpt) :
    (searchFinish env c name m fn p dp).cfg.updated = c.updated := by
  unfold searchFinish
  rcases searchLoop env fn p [] with ⟨found, effs⟩
  cases found with
  | some fp => rfl
  | none =>
    cases dp with
    | noDest => rfl
    | destTrue => cases p <;> rfl
    | destDir d => rfl

/-- No resolution path ever touches the `_updated` dirty flag: caching a
`_path` into the tree does not mark the config dirty. -/
theorem get_subconfig_path_updated (env : Env) (c : PkgConfig)
    (name : String) (tdp : Bool) (dp : DestOpt) :
    (get_subconfig_path env c name tdp dp).cfg.updated = c.updated := by
  unfold get_subconfig_path
  split
  · rfl
  next isf c₁ hcl =>
    have hup : c₁.updated = c.updated := (is_subconfig_file_fields hcl).2.2.2
    split
    · exact hup
    · repeat' split
      all_goals
        first
          | exact hup
          | (rw [searchFinish_updated]; exact hup)
          | (rw [searchFinish_updated]; simp [hup])
          | simp [hup]

theorem read_subconfig_updated (env : Env) (c : PkgConfig) (name : String)
    (tdp : Bool) (dp : DestOpt) :
    (read_subconfig env c name tdp dp).cfg.updated = c.updated := by
  unfold read_subconfig
  cases hres : (get_subconfig_path env c name tdp .noDest).res <;>
    simp [hres, get_subconfig_path_updated]

theorem cfg_get_updated (env : Env) (c : PkgConfig) (name : String)
    (dflt : Value) (tdp : Bool) (dp : DestOpt) (rf : Bool) :
    (cfg_get env c name dflt tdp dp rf).cfg.updated = c.updated := by
  unfold cfg_get
  split
  · rfl
  next c₁ hcl =>
    have hup : c₁.updated = c.updated := (is_subconfig_file_fields hcl).2.2.2
    cases rf with
    | false =>
      cases hres : (get_subconfig_path env c₁ name tdp dp).res with
      | ok v => simp [hres, get_subconfig_path_updated, hup]
      | error e =>
        cases e <;> simp [hres, get_subconfig_path_updated, hup]
    | true =>
      cases hres : (read_subconfig env c₁ name tdp dp).res with
      | ok v => simp [hres, read_subconfig_updated, hup]
      | error e =>
        cases e <;> simp [hres, read_subconfig_updated, hup]
  next c₁ hcl =>
    have hup : c₁.updated = c.updated := (is_subconfig_file_fields hcl).2.2.2
    split <;> exact hup

theorem cv_extract_updated (env : Env) (c : PkgConfig) (cv : ConfigValue) :
    (cv_extract env c cv).2.1.updated = c.updated := by
  unfold cv_extract
  split
  next hkeys =>
    cases hres : (cfg_get env c cv.node cv.dflt true .noDest true).res <;>
      simp [hres, cfg_get_updated]
  next hkeys =>
    cases hres : (cfg_get env c cv.node (.vmap []) true .noDest true).res <;>
      simp [hres, cfg_get_updated]

/-- The C6 counterexample `ConfigValue`, bound to key `x`, initially
uncached. -/
def cvC6 : ConfigValue := ⟨"x", [], .vnone, false, none, false, .vnone⟩

/-- The C6 counterexample config: `x` holds `1`, dirty flag clear, as
after construction. -/
def cC6 : PkgConfig := ⟨["."], ".", [], [("x", .vint 1)], false⟩

/-- First read of the C6 sequence. -/
def c6read1 := cv_value envW cC6 cvC6

/-- The mutation of the C6 sequence: `config.set('x', 2)`. -/
def c6mut : PkgConfig := PkgConfig.set c6read1.2.1 "x" (.vint 2)

/-- Second read of the C6 sequence (after the mutation). -/
def c6read2 := cv_value envW c6mut c6read1.2.2.1

/-- Third read of the C6 sequence (no further mutation). -/
def c6read3 := cv_value envW c6read2.2.1 c6read2.2.2.1

/-- Counterexample to claim C6: in the sequence read / mutate / read /
read, the first read caches, the second read re-extracts the new value —
but the third read, with no further mutation, extracts (traverses the
tree) again, because nothing ever clears the `_updated` flag.  The claim
says the third read performs no traversal. -/
theorem C6_counterexample :
    c6read1.2.2.1.cached = true ∧
    c6read2.1 = .ok (.vint 2) ∧
    c6read3.2.2.2 = true := ⟨rfl, rfl, rfl⟩

/-- Claim C6 amended: reads return the cached value with no tree
traversal only while the owning config has never been mutated; once the
dirty flag is set it is never cleared by a read, so every later read —
including the third read of the sequence read / mutate / read / read —
re-extracts. -/
theorem cv_value_extracts (env : Env) (c : PkgConfig) (cv : ConfigValue)
    (h : c.updated = true) : (cv_value env c cv).2.2.2 = true := by
  simp [cv_value, h]

theorem C6_amended_dirty_sticky (env : Env) (c : PkgConfig)
    (cv : ConfigValue) :
    (c.updated = true →
      (cv_value env c cv).2.2.2 = true ∧
      (cv_value env c cv).2.1.updated = true ∧
      ∀ cv₂, (cv_value env (cv_value env c cv).2.1 cv₂).2.2.2 = true) ∧
    (c.updated = false → cv.cached = true →
      cv_value env c cv = (.ok cv.val, c, cv, false)) := by
  constructor
  · intro hup
    have hpost : (cv_value env c cv).2.1.updated = true := by
      have heq : (cv_value env c cv).2.1.updated = c.updated := by
        simp [cv_value, hup, cv_extract_updated]
      rw [heq, hup]
    exact ⟨cv_value_extracts env c cv hup, hpost,
      fun cv₂ => cv_value_extracts env _ cv₂ hpost⟩
  · intro hup hca
    simp [cv_value, hup, hca]

/-- The C6-amended witness config: like `cC6` but already mutated. -/
def cC6d : PkgConfig := ⟨["."], ".", [], [("x", .vint 1)], true⟩

/-- The C6-amended witness `ConfigValue` with a filled cache. -/
def cvC6c : ConfigValue := ⟨"x", [], .vnone, false, none, true, .vint 7⟩

/-- Witness for the amended C6 on both sides: a dirty config re-extracts
on every read, a clean config with a filled cache does not. -/
theorem C6_amended_dirty_sticky_witness :
    (cv_value envW cC6d cvC6).2.2.2 = true ∧
    (cv_value envW cC6d cvC6).2.1.updated = true ∧
    (cv_value envW (cv_value envW cC6d cvC6).2.1 cvC6).2.2.2 = true ∧
    cv_value envW cC6 cvC6c = (.ok (.vint 7), cC6, cvC6c, false) := by
  have h₁ := (C6_amended_dirty_sticky envW cC6d cvC6).1 rfl
  have h₂ := (C6_amended_dirty_sticky envW cC6 cvC6c).2 rfl rfl
  exact ⟨h₁.1, h₁.2.1, h₁.2.2 cvC6, h₂⟩

end PkgCfg

namespace PkgCfg

theorem typeOf_ne_tmap_of (v : Value) (h : ∀ vs, v = .vmap vs → False) :
    typeOf v ≠ .tmap := by
  cases v <;> simp [typeOf] <;> exact h _ rfl

theorem dduItems_nil (hs : Handlers) (d : Value) :
    dduItems hs d [] = .ok d := by
  simp [dduItems]

theorem dduItems_cons_map (hs : Handlers) (vs : List (String × Value))
    (k : String) (vs₁ rest : List (String × Value)) :
    dduItems hs (.vmap vs) ((k, .vmap vs₁) :: rest)
      = match dduItems hs ((getV vs k).getD (.vmap [])) vs₁ with
        | .error e => .error e
        | .ok r => dduItems hs (.vmap (setV vs k r)) rest := by
  simp only [dduItems]

theorem dduItems_cons_nonmap (hs : Handlers) (vs : List (String × Value))
    (k : String) (v : Value) (rest : List (String × Value))
    (hv : typeOf v ≠ .tmap) :
    dduItems hs (.vmap vs) ((k, v) :: rest)
      = match getV vs k with
        | some old =>
          match lookupHandler hs (typeOf v) with
          | some h => dduItems hs (.vmap (setV vs k (h old v))) rest
          | none => dduItems hs (.vmap (setV vs k v)) rest
        | none => dduItems hs (.vmap (setV vs k v)) rest := by
  cases v <;> simp only [dduItems] <;> simp [typeOf] at hv

theorem dduItems_nonmapD (hs : Handlers) (d : Value) (k : String) (v : Value)
    (rest : List (String × Value)) (hd : ∀ dm, d = .vmap dm → False) :
    dduItems hs d ((k, v) :: rest) = .error () := by
  cases d <;> simp only [dduItems] <;> exact absurd rfl (hd _)

end PkgCfg

namespace PkgCfg

theorem mergeOkItems_nil (d : Value) : mergeOkItems d [] = true := by
  simp [mergeOkItems]

theorem mergeOkItems_cons_map (dm : List (String × Value)) (k : String)
    (vs rest : List (String × Value)) :
    mergeOkItems (.vmap dm) ((k, .vmap vs) :: rest)
      = (mergeOkItems ((getV dm k).getD (.vmap [])) vs
          && mergeOkItems (.vmap dm) rest) := by
  simp only [mergeOkItems]

theorem mergeOkItems_cons_nonmap (dm : List (String × Value)) (k : String)
    (v : Value) (rest : List (String × Value)) (hv : typeOf v ≠ .tmap) :
    mergeOkItems (.vmap dm) ((k, v) :: rest)
      = mergeOkItems (.vmap dm) rest := by
  cases v <;> simp only [mergeOkItems] <;> simp [typeOf] at hv
  all_goals simp

theorem mergeOkItems_nonmapD (d : Value) (k : String) (v : Value)
    (rest : List (String × Value)) (hd : ∀ dm, d = .vmap dm → False) :
    mergeOkItems d ((k, v) :: rest) = false := by
  cases d <;> simp only [mergeOkItems] <;> exact absurd rfl (hd _)

theorem wfEntries_nil : wfEntries [] = true := by simp [wfEntries]

theorem wfEntries_cons_map (k : String) (vs rest : List (String × Value)) :
    wfEntries ((k, .vmap vs) :: rest)
      = (keysNodup vs && wfEntries vs && wfEntries rest) := by
  simp only [wfEntries]

theorem wfEntries_cons_nonmap (k : String) (v : Value)
    (rest : List (String × Value)) (hv : typeOf v ≠ .tmap) :
    wfEntries ((k, v) :: rest) = wfEntries rest := by
  cases v <;> simp only [wfEntries] <;> simp [typeOf] at hv

theorem mergeOkItems_congr (items : List (String × Value)) :
    ∀ (dm dm' : List (String × Value)),
      (∀ k ∈ items.map Prod.fst, getV dm k = getV dm' k) →
      mergeOkItems (.vmap dm) items = mergeOkItems (.vmap dm') items := by
  induction items with
  | nil => intro dm dm' h; simp [mergeOkItems_nil]
  | cons hd tl ih =>
    obtain ⟨k, v⟩ := hd
    intro dm dm' h
    have hk : getV dm k = getV dm' k := h k (by simp)
    have htl : ∀ k' ∈ tl.map Prod.fst, getV dm k' = getV dm' k' := by
      intro k' hk'
      exact h k' (by simp [hk'])
    cases v
    case vmap vs =>
      rw [mergeOkItems_cons_map, mergeOkItems_cons_map, hk, ih dm dm' htl]
    all_goals
      rw [mergeOkItems_cons_nonmap _ _ _ _ (by simp [typeOf]),
        mergeOkItems_cons_nonmap _ _ _ _ (by simp [typeOf]),
        ih dm dm' htl]

end PkgCfg

namespace PkgCfg

theorem keysNodup_cons (k : String) (v : Value)
    (rest : List (String × Value)) (h : keysNodup ((k, v) :: rest) = true) :
    k ∉ rest.map Prod.fst ∧ keysNodup rest = true := by
  simp only [keysNodup, Bool.and_eq_true, Bool.not_eq_true'] at h
  refine ⟨?_, h.2⟩
  intro hmem
  rcases List.mem_map.mp hmem with ⟨kv, hkv, hfst⟩
  have h1 := List.any_eq_false.mp h.1 kv hkv
  simp at h1
  exact h1 hfst

theorem dduItems_ok_vmap (hs : Handlers) (d : Value)
    (items : List (String × Value)) :
    ∀ (dm : List (String × Value)) (c : Value), d = .vmap dm →
      dduItems hs d items = .ok c → ∃ cm, c = .vmap cm := by
  induction d, items using dduItems.induct hs with
  | case1 d =>
    intro dm c hd hok
    rw [dduItems_nil] at hok
    simp at hok
    exact ⟨dm, by rw [← hok, hd]⟩
  | case2 k rest vs vs₁ e herr ihn =>
    intro dm c hd hok
    rw [dduItems_cons_map, herr] at hok
    simp at hok
  | case3 k rest vs vs₁ r hokr ihn ihr =>
    intro dm c hd hok
    rw [dduItems_cons_map, hokr] at hok
    exact ihr (setV vs k r) c rfl hok
  | case4 k v rest vs old hold h hlh hnm ihr =>
    intro dm c hd hok
    rw [dduItems_cons_nonmap _ _ _ _ _ (typeOf_ne_tmap_of v hnm), hold,
      hlh] at hok
    exact ihr (setV vs k (h old v)) c rfl hok
  | case5 k v rest vs old hold hlh hnm ihr =>
    intro dm c hd hok
    rw [dduItems_cons_nonmap _ _ _ _ _ (typeOf_ne_tmap_of v hnm), hold,
      hlh] at hok
    exact ihr (setV vs k v) c rfl hok
  | case6 k v rest vs hnone hnm ihr =>
    intro dm c hd hok
    rw [dduItems_cons_nonmap _ _ _ _ _ (typeOf_ne_tmap_of v hnm),
      hnone] at hok
    exact ihr (setV vs k v) c rfl hok
  | case7 d k v rest hnm =>
    intro dm c hd hok
    rw [dduItems_nonmapD _ _ _ _ _ hnm] at hok
    simp at hok

theorem dduItems_getV_preserved (hs : Handlers) (d : Value)
    (items : List (String × Value)) :
    ∀ (k₀ : String) (dm cm : List (String × Value)),
      k₀ ∉ items.map Prod.fst → d = .vmap dm →
      dduItems hs d items = .ok (.vmap cm) →
      getV cm k₀ = getV dm k₀ := by
  induction d, items using dduItems.induct hs with
  | case1 d =>
    intro k₀ dm cm hni hd hok
    subst hd
    rw [dduItems_nil] at hok
    simp at hok
    rw [hok]
  | case2 k rest vs vs₁ e herr ihn =>
    intro k₀ dm cm hni hd hok
    rw [dduItems_cons_map, herr] at hok
    simp at hok
  | case3 k rest vs vs₁ r hokr ihn ihr =>
    intro k₀ dm cm hni hd hok
    simp only [List.map_cons, List.mem_cons, not_or] at hni
    rw [dduItems_cons_map, hokr] at hok
    have hvs := ihr k₀ (setV vs k r) cm (by simpa using hni.2) rfl hok
    rw [hvs, getV_setV_ne vs k k₀ r (fun hk => hni.1 hk.symm)]
    injection hd with hd'
    rw [hd']
  | case4 k v rest vs old hold h hlh hnm ihr =>
    intro k₀ dm cm hni hd hok
    simp only [List.map_cons, List.mem_cons, not_or] at hni
    rw [dduItems_cons_nonmap _ _ _ _ _ (typeOf_ne_tmap_of v hnm), hold,
      hlh] at hok
    have hvs := ihr k₀ (setV vs k (h old v)) cm (by simpa using hni.2) rfl hok
    rw [hvs, getV_setV_ne vs k k₀ _ (fun hk => hni.1 hk.symm)]
    injection hd with hd'
    rw [hd']
  | case5 k v rest vs old hold hlh hnm ihr =>
    intro k₀ dm cm hni hd hok
    simp only [List.map_cons, List.mem_cons, not_or] at hni
    rw [dduItems_cons_nonmap _ _ _ _ _ (typeOf_ne_tmap_of v hnm), hold,
      hlh] at hok
    have hvs := ihr k₀ (setV vs k v) cm (by simpa using hni.2) rfl hok
    rw [hvs, getV_setV_ne vs k k₀ _ (fun hk => hni.1 hk.symm)]
    injection hd with hd'
    rw [hd']
  | case6 k v rest vs hnone hnm ihr =>
    intro k₀ dm cm hni hd hok
    simp only [List.map_cons, List.mem_cons, not_or] at hni
    rw [dduItems_cons_nonmap _ _ _ _ _ (typeOf_ne_tmap_of v hnm),
      hnone] at hok
    have hvs := ihr k₀ (setV vs k v) cm (by simpa using hni.2) rfl hok
    rw [hvs, getV_setV_ne vs k k₀ _ (fun hk => hni.1 hk.symm)]
    injection hd with hd'
    rw [hd']
  | case7 d k v rest hnm =>
    intro k₀ dm cm hni hd hok
    rw [dduItems_nonmapD _ _ _ _ _ hnm] at hok
    simp at hok

end PkgCfg

namespace PkgCfg

theorem dduItems_total (d : Value) (items : List (String × Value)) :
    keysNodup items = true → wfEntries items = true →
    mergeOkItems d items = true → ∃ c, dduItems [] d items = .ok c := by
  induction d, items using dduItems.induct [] with
  | case1 d => intro _ _ _; exact ⟨d, dduItems_nil [] d⟩
  | case2 k rest vs vs₁ e herr ihn =>
    intro hnd hwf hok
    rw [wfEntries_cons_map] at hwf
    rw [mergeOkItems_cons_map] at hok
    simp only [Bool.and_eq_true] at hwf hok
    obtain ⟨c, hc⟩ := ihn hwf.1.1 hwf.1.2 hok.1
    rw [hc] at herr
    simp at herr
  | case3 k rest vs vs₁ r hokr ihn ihr =>
    intro hnd hwf hok
    have hk := keysNodup_cons k _ rest hnd
    rw [wfEntries_cons_map] at hwf
    rw [mergeOkItems_cons_map] at hok
    simp only [Bool.and_eq_true] at hwf hok
    have hcongr : mergeOkItems (.vmap (setV vs k r)) rest
        = mergeOkItems (.vmap vs) rest := by
      apply mergeOkItems_congr
      intro k' hk'
      exact getV_setV_ne vs k k' r (fun h => hk.1 (by rw [h]; exact hk'))
    obtain ⟨c, hc⟩ := ihr hk.2 hwf.2 (by rw [hcongr]; exact hok.2)
    exact ⟨c, by rw [dduItems_cons_map, hokr]; exact hc⟩
  | case4 k v rest vs old hold h hlh hnm ihr =>
    intro _ _ _
    simp [lookupHandler] at hlh
  | case5 k v rest vs old hold hlh hnm ihr =>
    intro hnd hwf hok
    have hv := typeOf_ne_tmap_of v hnm
    have hk := keysNodup_cons k v rest hnd
    rw [wfEntries_cons_nonmap _ _ _ hv] at hwf
    rw [mergeOkItems_cons_nonmap _ _ _ _ hv] at hok
    have hcongr : mergeOkItems (.vmap (setV vs k v)) rest
        = mergeOkItems (.vmap vs) rest :=
      mergeOkItems_congr _ _ _
        (fun k' hk' => getV_setV_ne vs k k' v
          (fun hh => hk.1 (by rw [hh]; exact hk')))
    obtain ⟨c, hc⟩ := ihr hk.2 hwf (by rw [hcongr]; exact hok)
    exact ⟨c, by rw [dduItems_cons_nonmap _ _ _ _ _ hv, hold, hlh]; exact hc⟩
  | case6 k v rest vs hnone hnm ihr =>
    intro hnd hwf hok
    have hv := typeOf_ne_tmap_of v hnm
    have hk := keysNodup_cons k v rest hnd
    rw [wfEntries_cons_nonmap _ _ _ hv] at hwf
    rw [mergeOkItems_cons_nonmap _ _ _ _ hv] at hok
    have hcongr : mergeOkItems (.vmap (setV vs k v)) rest
        = mergeOkItems (.vmap vs) rest :=
      mergeOkItems_congr _ _ _
        (fun k' hk' => getV_setV_ne vs k k' v
          (fun hh => hk.1 (by rw [hh]; exact hk')))
    obtain ⟨c, hc⟩ := ihr hk.2 hwf (by rw [hcongr]; exact hok)
    exact ⟨c, by rw [dduItems_cons_nonmap _ _ _ _ _ hv, hnone]; exact hc⟩
  | case7 d k v rest hnm =>
    intro hnd hwf hok
    rw [mergeOkItems_nonmapD _ _ _ _ hnm] at hok
    exact absurd hok (by simp)

theorem dduItems_idem (d : Value) (items : List (String × Value)) :
    keysNodup items = true → wfEntries items = true →
    ∀ c, dduItems [] d items = .ok c → dduItems [] c items = .ok c := by
  induction d, items using dduItems.induct [] with
  | case1 d =>
    intro _ _ c _
    rw [dduItems_nil]
  | case2 k rest vs vs₁ e herr ihn =>
    intro hnd hwf c hok
    rw [dduItems_cons_map, herr] at hok
    simp at hok
  | case3 k rest vs vs₁ r hokr ihn ihr =>
    intro hnd hwf c hok
    have hk := keysNodup_cons k _ rest hnd
    rw [wfEntries_cons_map] at hwf
    simp only [Bool.and_eq_true] at hwf
    rw [dduItems_cons_map, hokr] at hok
    have hok' : dduItems [] (.vmap (setV vs k r)) rest = .ok c := hok
    obtain ⟨cm, hcm⟩ := dduItems_ok_vmap [] _ rest (setV vs k r) c rfl hok'
    subst hcm
    have hcmk : getV cm k = some r := by
      rw [dduItems_getV_preserved [] _ rest k (setV vs k r) cm hk.1 rfl hok',
        getV_setV_self]
    have hn := ihn hwf.1.1 hwf.1.2 r hokr
    have hr := ihr hk.2 hwf.2 (.vmap cm) hok'
    rw [dduItems_cons_map, hcmk]
    simp only [Option.getD_some]
    rw [hn]
    show dduItems [] (.vmap (setV cm k r)) rest = .ok (.vmap cm)
    rw [setV_getV_eq cm k r hcmk]
    exact hr
  | case4 k v rest vs old hold h hlh hnm ihr =>
    intro _ _ c _
    simp [lookupHandler] at hlh
  | case5 k v rest vs old hold hlh hnm ihr =>
    intro hnd hwf c hok
    have hv := typeOf_ne_tmap_of v hnm
    have hk := keysNodup_cons k v rest hnd
    rw [wfEntries_cons_nonmap _ _ _ hv] at hwf
    rw [dduItems_cons_nonmap _ _ _ _ _ hv, hold, hlh] at hok
    have hok' : dduItems [] (.vmap (setV vs k v)) rest = .ok c := hok
    obtain ⟨cm, hcm⟩ := dduItems_ok_vmap [] _ rest (setV vs k v) c rfl hok'
    subst hcm
    have hcmk : getV cm k = some v := by
      rw [dduItems_getV_preserved [] _ rest k (setV vs k v) cm hk.1 rfl hok',
        getV_setV_self]
    have hr := ihr hk.2 hwf (.vmap cm) hok'
    rw [dduItems_cons_nonmap _ _ _ _ _ hv, hcmk]
    show dduItems [] (.vmap (setV cm k v)) rest = .ok (.vmap cm)
    rw [setV_getV_eq cm k v hcmk]
    exact hr
  | case6 k v rest vs hnone hnm ihr =>
    intro hnd hwf c hok
    have hv := typeOf_ne_tmap_of v hnm
    have hk := keysNodup_cons k v rest hnd
    rw [wfEntries_cons_nonmap _ _ _ hv] at hwf
    rw [dduItems_cons_nonmap _ _ _ _ _ hv, hnone] at hok
    have hok' : dduItems [] (.vmap (setV vs k v)) rest = .ok c := hok
    obtain ⟨cm, hcm⟩ := dduItems_ok_vmap [] _ rest (setV vs k v) c rfl hok'
    subst hcm
    have hcmk : getV cm k = some v := by
      rw [dduItems_getV_preserved [] _ rest k (setV vs k v) cm hk.1 rfl hok',
        getV_setV_self]
    have hr := ihr hk.2 hwf (.vmap cm) hok'
    rw [dduItems_cons_nonmap _ _ _ _ _ hv, hcmk]
    show dduItems [] (.vmap (setV cm k v)) rest = .ok (.vmap cm)
    rw [setV_getV_eq cm k v hcmk]
    exact hr
  | case7 d k v rest hnm =>
    intro hnd hwf c hok
    rw [dduItems_nonmapD _ _ _ _ _ hnm] at hok
    simp at hok

end PkgCfg

namespace PkgCfg

/-- Counterexample to claim C5: with no handlers, merging an update that
holds a (non-empty) mapping at a key where the base holds the scalar `1`
raises (Python: `TypeError` on `'b' in 1`), so the merge is not total. -/
theorem C5_counterexample :
    dict_deep_update (.vmap [("a", .vint 1)])
      (.vmap [("a", .vmap [("b", .vint 2)])]) [] = .error () := by
  simp [dict_deep_update, dduItems, getV]

/-- Claim C5 amended: with no handlers, `dict_deep_update` is total over
well-formed mapping inputs provided that wherever the update holds a
non-empty mapping, the base holds a mapping (or nothing) at that key,
recursively (`mergeOk`); when a base key holds a non-mapping scalar and
the update holds a non-empty mapping there, the merge raises instead. -/
theorem C5_amended_total_on_compat (d u : Value)
    (hwf : wfUpd u = true) (hok : mergeOk d u = true) :
    ∃ c, dict_deep_update d u [] = .ok c := by
  cases u <;> simp [wfUpd] at hwf
  case vmap us =>
    have hok' : mergeOkItems d us = true := by simpa [mergeOk] using hok
    obtain ⟨c, hc⟩ := dduItems_total d us hwf.1 hwf.2 hok'
    exact ⟨c, by simpa [dict_deep_update] using hc⟩

/-- Witness for the amended C5 on nested concrete mappings. -/
theorem C5_amended_total_on_compat_witness :
    ∃ c, dict_deep_update
      (.vmap [("a", .vint 1), ("m", .vmap [("x", .vint 1)])])
      (.vmap [("m", .vmap [("x", .vint 5), ("y", .vint 2)]), ("z", .vint 9)])
      [] = .ok c :=
  C5_amended_total_on_compat
    (.vmap [("a", .vint 1), ("m", .vmap [("x", .vint 1)])])
    (.vmap [("m", .vmap [("x", .vint 5), ("y", .vint 2)]), ("z", .vint 9)])
    (by simp [wfUpd, keysNodup, wfEntries])
    (by simp [mergeOk, mergeOkItems, getV])

/-- Claim C8: with no handlers, the deep merge is idempotent in its update
argument — if `merge(A, B)` produced `C`, then `merge(C, B)` produces `C`
again. -/
theorem C8_merge_idempotent (a b c : Value) (hwf : wfUpd b = true)
    (h : dict_deep_update a b [] = .ok c) :
    dict_deep_update c b [] = .ok c := by
  cases b <;> simp [wfUpd] at hwf
  case vmap us =>
    simp only [dict_deep_update] at h ⊢
    exact dduItems_idem a us hwf.1 hwf.2 c h

/-- Witness for C8 on nested concrete mappings. -/
theorem C8_merge_idempotent_witness :
    dict_deep_update
      (.vmap [("a", .vint 1),
              ("m", .vmap [("x", .vint 5), ("y", .vint 2)]),
              ("z", .vint 9)])
      (.vmap [("m", .vmap [("x", .vint 5), ("y", .vint 2)]), ("z", .vint 9)])
      [] = .ok
      (.vmap [("a", .vint 1),
              ("m", .vmap [("x", .vint 5), ("y", .vint 2)]),
              ("z", .vint 9)]) :=
  C8_merge_idempotent
    (.vmap [("a", .vint 1), ("m", .vmap [("x", .vint 1)])])
    (.vmap [("m", .vmap [("x", .vint 5), ("y", .vint 2)]), ("z", .vint 9)])
    (.vmap [("a", .vint 1),
            ("m", .vmap [("x", .vint 5), ("y", .vint 2)]),
            ("z", .vint 9)])
    (by simp [wfUpd, keysNodup, wfEntries])
    (by simp [dict_deep_update, dduItems, getV, setV, lookupHandler, typeOf])

end PkgCfg
